import Mathlib

/-!
Shallow embedding of the staging / planning / reconstruction pipeline of
`src/frontend/js/app.js` (class `PDFToolManager`), and proofs of the
ordering, batching, error-handling and intake properties stated in the
design document.

The embedding covers:
* the page staging sequence of organize mode (`this.organizePages` / the
  DOM `.page-item` list), as a list of `PageItem`s;
* the batch grouping loop and the two submit-time guards of `runOrganize`
  (lines 1254-1291), as `plan`;
* the sequential extraction loop, the single-batch shortcut and the merge
  call of `runOrganize` (lines 1294-1331), as `execute`, parametrised by
  the remote services and instrumented with the list of issued requests;
* the file intake loop `handleAddFiles` (lines 395-426);
* the page expansion `addPdfAsPages` (lines 1527-1545);
* the drag-reorder primitive behind `enableFileDragSort` /
  `setupPageDragSort` (remove the dragged item, insert it before the
  j-th remaining item, or append when there is none), as `moveItem`.
-/

deriving instance DecidableEq for Except

/-- One entry of the organize staging sequence: a page item as stored in
`this.organizePages` and mirrored by a DOM `.page-item` node.
`fileIndex` is `item.dataset.fileIndex` (the identity of the source
document), `pageNum` is `item.dataset.pageNum` (1-based original page
number), `checked` is the state of the item's `.page-checkbox`. -/
structure PageItem where
  fileIndex : Nat
  pageNum : Nat
  checked : Bool
  deriving DecidableEq, Repr

/-- A planned extraction batch, as built by the grouping loop of
`runOrganize`: one source document (`fileIndex`, standing for
`batch.file`) and the ordered list of page numbers pushed into
`batch.pages`. -/
structure Batch where
  fileIndex : Nat
  pages : List Nat
  deriving DecidableEq, Repr

/-- The failures `runOrganize` can throw, by throw site:
`noPages` is `throw Error("Please upload PDF files first")` (line 1257),
`emptySelection` is `throw Error("Please select at least one page to
include")` (line 1267), `extractionFailed` is the throw inside the batch
loop (line 1305) tagged with the loop position of the failing batch, and
`mergeFailed` is the throw after the merge request (line 1328). -/
inductive OrgError where
  | noPages
  | emptySelection
  | extractionFailed (batchIndex : Nat) (message : String)
  | mergeFailed (message : String)
  deriving DecidableEq, Repr

/-- JavaScript's `errorText || defaultMsg`: an empty response body is
falsy, so the generic message is used instead. -/
def orDefault (s d : String) : String := if s = "" then d else s

/-- The two remote endpoints used by `runOrganize`, abstracted as pure
oracles over an arbitrary blob type `β`: `extract fileIndex pages` is
`POST /api/pdf/reorder` with the batch's file and its comma-joined page
list, `merge blobs` is `POST /api/pdf/merge` with the extracted blobs in
order.  An `Except.error` value is a non-ok HTTP response carrying the
response body text. -/
structure Services (β : Type) where
  extract : Nat → List Nat → Except String β
  merge : List β → Except String β

/-- A network request issued by `execute`, recorded in order. -/
inductive Request (β : Type) where
  | extractReq (fileIndex : Nat) (pages : List Nat)
  | mergeReq (blobs : List β)
  deriving DecidableEq, Repr

/-- The extraction request for a batch. -/
def mkExtractReq {β : Type} (b : Batch) : Request β :=
  .extractReq b.fileIndex b.pages

/-- The grouping loop body of `runOrganize` (lines 1274-1291), with the
mutable `currentBatch` made explicit: `cur` is the open batch; a page of
the same document is appended to `cur.pages`, a page of a different
document closes `cur` and opens a new batch. -/
def planGo (cur : Batch) : List PageItem → List Batch
  | [] => [cur]
  | it :: rest =>
    if cur.fileIndex == it.fileIndex then
      planGo { fileIndex := cur.fileIndex, pages := cur.pages ++ [it.pageNum] } rest
    else
      cur :: planGo { fileIndex := it.fileIndex, pages := [it.pageNum] } rest

/-- The grouping loop of `runOrganize` over the selected page items:
`batches = []`, `currentBatch = null`, then `selectedPageItems.forEach`. -/
def planBatches : List PageItem → List Batch
  | [] => []
  | it :: rest => planGo { fileIndex := it.fileIndex, pages := [it.pageNum] } rest

/-- The planning phase of `runOrganize` (lines 1254-1291): the
no-pages-staged guard, the nothing-selected guard over the items whose
checkbox is checked, then the grouping loop. -/
def plan (items : List PageItem) : Except OrgError (List Batch) :=
  if items.isEmpty then .error .noPages
  else
    let selected := items.filter (·.checked)
    if selected.isEmpty then .error .emptySelection
    else .ok (planBatches selected)

/-- The sequential extraction loop of `runOrganize` (lines 1294-1310),
started at loop position `i`: one `/api/pdf/reorder` request per batch,
in order; the first non-ok response throws immediately (no request is
issued for the remaining batches), otherwise the blobs are collected in
batch order.  The issued requests are returned alongside the result. -/
def runExtractionsFrom {β : Type} (svc : Services β) (i : Nat) :
    List Batch → List (Request β) × Except OrgError (List β)
  | [] => ([], .ok [])
  | b :: rest =>
    match svc.extract b.fileIndex b.pages with
    | .error msg =>
        ([mkExtractReq b],
         .error (.extractionFailed i (orDefault msg "Failed to extract pages")))
    | .ok blob =>
        let next := runExtractionsFrom svc (i + 1) rest
        (mkExtractReq b :: next.1,
         match next.2 with
         | .error e => .error e
         | .ok blobs => .ok (blob :: blobs))

/-- The execution phase of `runOrganize` (lines 1294-1331): extract every
batch sequentially; if exactly one blob resulted it is the final output
(no merge request); otherwise one `/api/pdf/merge` request with the blobs
in batch order produces the final output. -/
def execute {β : Type} (svc : Services β) (batches : List Batch) :
    List (Request β) × Except OrgError β :=
  let r := runExtractionsFrom svc 0 batches
  match r.2 with
  | .error e => (r.1, .error e)
  | .ok blobs =>
    match blobs with
    | [single] => (r.1, .ok single)
    | _ =>
      match svc.merge blobs with
      | .error msg => (r.1 ++ [.mergeReq blobs], .error (.mergeFailed (orDefault msg "Merge failed")))
      | .ok merged => (r.1 ++ [.mergeReq blobs], .ok merged)

/-- The whole of `runOrganize`, threading the staging sequence through:
the function only reads `this.organizePages` and the DOM item list and
never assigns to either, so the state component is returned as it came
in; the other components are the issued requests and the result. -/
def runOrganize {β : Type} (svc : Services β) (state : List PageItem) :
    List PageItem × List (Request β) × Except OrgError β :=
  match plan state with
  | .error e => (state, [], .error e)
  | .ok batches =>
    let r := execute svc batches
    (state, r.1, r.2)

/-- Identifies a page of a source document: the pair (document, original
page number). -/
def pageRef (it : PageItem) : Nat × Nat := (it.fileIndex, it.pageNum)

/-- Specified behaviour of `PageExtractionService` (design §6): the
returned document contains exactly the requested pages of the source
document, in exactly the requested order. -/
def idealExtract (fileIndex : Nat) (pages : List Nat) : List (Nat × Nat) :=
  pages.map (fun p => (fileIndex, p))

/-- The two remote services behaving as specified in design §6, with a
document modelled as its sequence of pages: extraction returns exactly
the requested pages in order and merging concatenates in the given
order. -/
def idealServices : Services (List (Nat × Nat)) where
  extract := fun fileIndex pages => .ok (idealExtract fileIndex pages)
  merge := fun blobs => .ok blobs.flatten

/-- A file offered to intake: its `name` and its MIME `type`. -/
structure FileDesc where
  name : String
  kind : String
  deriving DecidableEq, Repr

/-- The active tool as seen by `handleAddFiles`: `accepts` embeds the
kind filter `f.type.match(acceptPattern)` built from the tool's `accept`
field, `multiple` is the tool's `multiple` flag. -/
structure Tool where
  accepts : String → Bool
  multiple : Bool

/-- A user notification issued during intake: the `showStatus` error for
a file whose kind does not match the active tool's filter. -/
inductive IntakeNotice where
  | unsupportedKind (f : FileDesc)
  deriving DecidableEq, Repr

/-- The intake loop of `handleAddFiles` (lines 407-422): a non-matching
file is reported and skipped (`continue`); in single-file mode with an
item already staged, the file replaces the whole staged list and the
loop stops (`break`); otherwise the file is appended.  Returns the new
`pickedFiles` and the notifications issued. -/
def handleAddFilesGo (tool : Tool) (picked : List FileDesc) :
    List FileDesc → List FileDesc × List IntakeNotice
  | [] => (picked, [])
  | f :: rest =>
    if !tool.accepts f.kind then
      let r := handleAddFilesGo tool picked rest
      (r.1, .unsupportedKind f :: r.2)
    else if !tool.multiple && !picked.isEmpty then
      ([f], [])
    else
      handleAddFilesGo tool (picked ++ [f]) rest

/-- `handleAddFiles` on the staged list `picked` and the offered file
list `files`. -/
def handleAddFiles (tool : Tool) (picked : List FileDesc) (files : List FileDesc) :
    List FileDesc × List IntakeNotice :=
  handleAddFilesGo tool picked files

/-- The page run appended by `addPdfAsPages`: one included item per page
number `1..numPages` of document `fileIndex`, in order. -/
def pageRun (fileIndex numPages : Nat) : List PageItem :=
  (List.range numPages).map (fun k => { fileIndex := fileIndex, pageNum := k + 1, checked := true })

/-- `addPdfAsPages(file, fileIndex)` (lines 1527-1545) on the staging
sequence: the loop `for pageNum = 1..pdf.numPages` pushes one item per
page onto `this.organizePages` (and one `.page-item` node onto the DOM
list), each with its checkbox checked; there is no guard against the
document being already expanded. -/
def addPdfAsPages (state : List PageItem) (fileIndex numPages : Nat) : List PageItem :=
  state ++ pageRun fileIndex numPages

/-- The completed drag gesture beneath `enableFileDragSort` /
`setupPageDragSort`: the dragged item (at position `i`) is removed and
reinserted before the `j`-th of the remaining items
(`insertBefore(dragging, afterElement)`), or appended when
`getDragAfterElement` returns null (`j` equal to the number of remaining
items). -/
def moveItem {α : Type} (l : List α) (i j : Nat) : List α :=
  match l[i]? with
  | none => l
  | some x => (l.eraseIdx i).insertIdx j x

/-- Whether two page items come from the same source document, the
condition `currentBatch.fileIndex !== fileIndex` negated. -/
def sameDoc (a b : PageItem) : Bool := a.fileIndex == b.fileIndex

/-- The batch a maximal same-document run of page items denotes: the
run's document and its page numbers in display order. -/
def runBatch (run : List PageItem) : Batch :=
  { fileIndex := (run.headD { fileIndex := 0, pageNum := 0, checked := true }).fileIndex,
    pages := run.map (·.pageNum) }

/-! ## Helper lemmas -/

/-- Removing the item at `i` and reinserting it at `i` restores the
list. -/
theorem insertIdx_get_eraseIdx {α : Type} :
    ∀ (l : List α) (i : Nat) (h : i < l.length),
      (l.eraseIdx i).insertIdx i (l.get ⟨i, h⟩) = l
  | _ :: _, 0, _ => rfl
  | a :: l, i + 1, h => by
    simp only [List.eraseIdx, List.get_eq_getElem, List.getElem_cons_succ,
      List.insertIdx_succ_cons, List.cons.injEq, true_and]
    exact insertIdx_get_eraseIdx l i (Nat.lt_of_succ_lt_succ h)

/-! ## Claims about page expansion (C4) -/

/-- C4, counterexample: expanding a 2-page document twice is not a no-op;
the staging sequence after the second call differs from the sequence
after the first. -/
theorem addPdfAsPages_not_idempotent :
    addPdfAsPages (addPdfAsPages [] 0 2) 0 2 ≠ addPdfAsPages [] 0 2 := by decide

/-- C4, amended: calling `addPdfAsPages` a second time for the same
document is not a no-op; it appends a second copy of the document's page
run, duplicating every one of its Page entries. -/
theorem addPdfAsPages_repeat_duplicates (state : List PageItem) (fileIndex numPages : Nat) :
    addPdfAsPages (addPdfAsPages state fileIndex numPages) fileIndex numPages
      = state ++ pageRun fileIndex numPages ++ pageRun fileIndex numPages := rfl

/-! ## Claims about the planner guards (C6) -/

/-- C6, counterexample: the empty snapshot has no included item, yet
`plan` fails with the no-pages guard, not with `EmptySelection`. -/
theorem plan_nil_not_emptySelection :
    plan [] = .error .noPages ∧ plan [] ≠ .error .emptySelection := by decide

/-- C6, amended: for every nonempty snapshot in which no item is marked
included, `plan` fails with `EmptySelection` (and hence never produces a
successful reconstruction); the empty snapshot instead fails with the
earlier no-pages guard. -/
theorem plan_emptySelection (items : List PageItem) (hne : items ≠ [])
    (h : ∀ it ∈ items, it.checked = false) :
    plan items = .error .emptySelection := by
  have hsel : items.filter (·.checked) = [] :=
    List.filter_eq_nil_iff.mpr (fun a ha => by simp [h a ha])
  simp [plan, hsel, hne]

/-- C6, witness for the amended claim at a concrete snapshot. -/
theorem plan_emptySelection_witness :
    plan [{ fileIndex := 0, pageNum := 1, checked := false }] = .error .emptySelection :=
  plan_emptySelection [{ fileIndex := 0, pageNum := 1, checked := false }]
    (by decide) (by decide)

/-! ## Claims about the executor (C5, C7) -/

/-- C5: when the planner produced exactly one batch, `execute` issues
just that batch's extraction request — in particular no merge request —
and its output is the single extraction response, verbatim. -/
theorem execute_single_batch {β : Type} (svc : Services β) (items : List PageItem)
    (b : Batch) (blob : β)
    (hplan : plan items = .ok [b])
    (hx : svc.extract b.fileIndex b.pages = .ok blob) :
    execute svc [b] = ([Request.extractReq b.fileIndex b.pages], .ok blob) := by
  simp [execute, runExtractionsFrom, hx, mkExtractReq]

/-- C5, witness: a two-page single-document snapshot plans to one batch,
and executing it returns the extraction response with no merge call. -/
theorem execute_single_batch_witness :
    execute (Services.mk (fun _ _ => Except.ok 9) (fun _ => Except.error "no"))
        [{ fileIndex := 0, pages := [1, 3] }]
      = ([Request.extractReq 0 [1, 3]], .ok 9) :=
  execute_single_batch _ [⟨0, 1, true⟩, ⟨0, 3, true⟩] ⟨0, [1, 3]⟩ 9 (by decide) rfl

/-- C7: a `runOrganize` call that fails with a remote service error
(extraction or merge) leaves the staging sequence exactly as it was —
no item, order or inclusion flag changes. -/
theorem runOrganize_state_unchanged {β : Type} (svc : Services β) (state : List PageItem)
    (e : OrgError)
    (he : (runOrganize svc state).2.2 = .error e)
    (hremote : (∃ i m, e = .extractionFailed i m) ∨ ∃ m, e = .mergeFailed m) :
    (runOrganize svc state).1 = state := by
  unfold runOrganize
  split <;> rfl

/-- C7, witness: with the extraction service down, the staging sequence
survives the failed run unchanged. -/
theorem runOrganize_state_unchanged_witness :
    (runOrganize (Services.mk (fun _ _ => (Except.error "down" : Except String Nat))
        (fun _ => Except.error "down")) [{ fileIndex := 0, pageNum := 1, checked := true }]).1
      = [{ fileIndex := 0, pageNum := 1, checked := true }] :=
  runOrganize_state_unchanged _ _ (.extractionFailed 0 "down") rfl
    (Or.inl ⟨0, "down", rfl⟩)

/-! ## Claims about file intake (C8, C10) -/

/-- C8: a file whose kind does not match the active tool's filter is
rejected: the staged list ends up exactly as if the file had not been
offered, the user is notified with the unsupported-kind status, and the
rest of the intake is unaffected. -/
theorem handleAddFiles_unsupported_skipped (tool : Tool) (picked : List FileDesc)
    (f : FileDesc) (rest : List FileDesc) (h : tool.accepts f.kind = false) :
    handleAddFiles tool picked (f :: rest)
      = ((handleAddFiles tool picked rest).1,
         .unsupportedKind f :: (handleAddFiles tool picked rest).2) := by
  simp [handleAddFiles, handleAddFilesGo, h]

/-- C8, witness: a PDF-only tool rejects a PNG, leaving the staged list
empty and issuing one notification. -/
theorem handleAddFiles_unsupported_skipped_witness :
    handleAddFiles (Tool.mk (fun k => k == "application/pdf") false) []
        [{ name := "a.png", kind := "image/png" }]
      = ((handleAddFiles (Tool.mk (fun k => k == "application/pdf") false) [] []).1,
         .unsupportedKind { name := "a.png", kind := "image/png" }
           :: (handleAddFiles (Tool.mk (fun k => k == "application/pdf") false) [] []).2) :=
  handleAddFiles_unsupported_skipped _ [] { name := "a.png", kind := "image/png" } []
    (by decide)

/-- C10: in a mode that disallows multiple items, when a batch of files
is offered while an item is already staged, the first accepted file of
the batch replaces the whole staged list and every remaining file is
silently ignored (the loop breaks); files before it that fail the kind
filter are only reported. -/
theorem handleAddFiles_single_replace (tool : Tool) (picked : List FileDesc)
    (pre : List FileDesc) (f : FileDesc) (rest : List FileDesc)
    (hm : tool.multiple = false) (hp : picked ≠ [])
    (hpre : ∀ g ∈ pre, tool.accepts g.kind = false)
    (hf : tool.accepts f.kind = true) :
    handleAddFiles tool picked (pre ++ f :: rest)
      = ([f], pre.map IntakeNotice.unsupportedKind) := by
  induction pre with
  | nil =>
    have hpe : picked.isEmpty = false := by
      cases picked with
      | nil => exact absurd rfl hp
      | cons a l => rfl
    simp [handleAddFiles, handleAddFilesGo, hf, hm, hpe]
  | cons g pre ih =>
    have hg : tool.accepts g.kind = false := hpre g (List.mem_cons_self g pre)
    have ih2 : handleAddFiles tool picked (pre ++ f :: rest)
        = ([f], pre.map IntakeNotice.unsupportedKind) :=
      ih (fun x hx => hpre x (List.mem_cons_of_mem g hx))
    simp only [handleAddFiles] at ih2
    simp [handleAddFiles, handleAddFilesGo, hg, ih2]

/-- C10, witness: with one PDF staged on a single-file tool, offering a
PNG, a PDF and another PDF ends with only the first offered PDF staged
and one notification for the PNG. -/
theorem handleAddFiles_single_replace_witness :
    handleAddFiles (Tool.mk (fun k => k == "application/pdf") false)
        [{ name := "old.pdf", kind := "application/pdf" }]
        ([{ name := "x.png", kind := "image/png" }]
          ++ { name := "new.pdf", kind := "application/pdf" }
            :: [{ name := "z.pdf", kind := "application/pdf" }])
      = ([{ name := "new.pdf", kind := "application/pdf" }],
         [{ name := "x.png", kind := "image/png" }].map IntakeNotice.unsupportedKind) :=
  handleAddFiles_single_replace _ _ [{ name := "x.png", kind := "image/png" }]
    { name := "new.pdf", kind := "application/pdf" }
    [{ name := "z.pdf", kind := "application/pdf" }]
    rfl (by decide) (by decide) (by decide)

/-! ## Claims about drag reordering (C9) -/

/-- C9: a completed drag relocates only the dragged item: the remaining
items keep their relative order (removing the moved item from the result
gives the original list without it), the moved item lands at the target
position, and moving it straight back to its original position restores
the original sequence exactly, for any starting arrangement. -/
theorem moveItem_spec {α : Type} (l : List α) (i j : Nat)
    (hi : i < l.length) (hj : j ≤ l.length - 1) :
    (moveItem l i j).eraseIdx j = l.eraseIdx i
      ∧ (moveItem l i j)[j]? = l[i]?
      ∧ moveItem (moveItem l i j) j i = l := by
  have hx : l[i]? = some (l.get ⟨i, hi⟩) := by
    rw [List.getElem?_eq_getElem hi, List.get_eq_getElem]
  have hm : moveItem l i j = (l.eraseIdx i).insertIdx j (l.get ⟨i, hi⟩) := by
    simp [moveItem, hx]
  have hslen : (l.eraseIdx i).length = l.length - 1 :=
    List.length_eraseIdx_of_lt hi
  have hj' : j ≤ (l.eraseIdx i).length := by omega
  have hjlt : j < ((l.eraseIdx i).insertIdx j (l.get ⟨i, hi⟩)).length := by
    rw [List.length_insertIdx j _ hj']; omega
  have hgot : ((l.eraseIdx i).insertIdx j (l.get ⟨i, hi⟩))[j]? = some (l.get ⟨i, hi⟩) := by
    rw [List.getElem?_eq_getElem hjlt]
    exact congrArg some (List.getElem_insertIdx_self (l.eraseIdx i) (l.get ⟨i, hi⟩) j hj')
  refine ⟨?_, ?_, ?_⟩
  · rw [hm, List.eraseIdx_insertIdx]
  · rw [hm, hgot, hx]
  · rw [hm, moveItem, hgot]
    simp only [List.eraseIdx_insertIdx]
    exact insertIdx_get_eraseIdx l i hi

/-- C9, witness: moving the second of four items to the third slot and
back restores the list. -/
theorem moveItem_spec_witness :
    (moveItem [10, 20, 30, 40] 1 2).eraseIdx 2 = List.eraseIdx [10, 20, 30, 40] 1
      ∧ (moveItem [10, 20, 30, 40] 1 2)[2]? = [10, 20, 30, 40][1]?
      ∧ moveItem (moveItem [10, 20, 30, 40] 1 2) 2 1 = [10, 20, 30, 40] :=
  moveItem_spec [10, 20, 30, 40] 1 2 (by decide) (by decide)

/-! ## Order preservation (C1) -/

/-- Under the ideal services every extraction succeeds, and the
extraction loop issues one request per batch and collects the specified
page sequences in batch order. -/
theorem idealServices_extract (fi : Nat) (ps : List Nat) :
    idealServices.extract fi ps = .ok (idealExtract fi ps) := rfl

theorem runExtractions_ideal (i : Nat) (bs : List Batch) :
    runExtractionsFrom idealServices i bs
      = (bs.map mkExtractReq, .ok (bs.map (fun b => idealExtract b.fileIndex b.pages))) := by
  induction bs generalizing i with
  | nil => rfl
  | cons b rest ih =>
    simp only [runExtractionsFrom, idealServices_extract]
    rw [ih]
    simp

/-- Under the ideal services the output of `execute` is the
concatenation, in batch order, of each batch's page sequence — whether
or not the merge shortcut is taken. -/
theorem execute_ideal (bs : List Batch) :
    (execute idealServices bs).2
      = .ok ((bs.map (fun b => idealExtract b.fileIndex b.pages)).flatten) := by
  have h := runExtractions_ideal 0 bs
  rcases bs with _ | ⟨b, _ | ⟨b2, rest⟩⟩
  · simp only [execute, h]
    simp [idealServices]
  · simp only [execute, h]
    simp
  · simp only [execute, h]
    simp [idealServices]

/-- Concatenating the page sequences of the batches the grouping loop
builds from an open batch `⟨fi, ps⟩` restores `ps` under `fi` followed
by the remaining items in display order. -/
theorem planGo_flatten (rest : List PageItem) :
    ∀ (fi : Nat) (ps : List Nat),
      ((planGo { fileIndex := fi, pages := ps } rest).map
          (fun b => idealExtract b.fileIndex b.pages)).flatten
        = idealExtract fi ps ++ rest.map pageRef := by
  induction rest with
  | nil => intro fi ps; simp [planGo]
  | cons it rest ih =>
    intro fi ps
    by_cases h : fi = it.fileIndex
    · have hb : (({ fileIndex := fi, pages := ps } : Batch).fileIndex == it.fileIndex) = true := by
        simp [h]
      simp only [planGo, hb, if_true]
      rw [ih]
      simp [idealExtract, pageRef, h, List.append_assoc]
    · have hb : (({ fileIndex := fi, pages := ps } : Batch).fileIndex == it.fileIndex) = false := by
        simp [h]
      simp only [planGo, hb, Bool.false_eq_true, if_false, List.map_cons, List.flatten_cons]
      rw [ih]
      simp [idealExtract, pageRef]

/-- Concatenating the page sequences of the planned batches yields
exactly the selected items' pages in display order. -/
theorem planBatches_flatten (sel : List PageItem) :
    ((planBatches sel).map (fun b => idealExtract b.fileIndex b.pages)).flatten
      = sel.map pageRef := by
  cases sel with
  | nil => rfl
  | cons it rest =>
    simp only [planBatches]
    rw [planGo_flatten rest it.fileIndex [it.pageNum]]
    simp [idealExtract, pageRef]

/-- C1: for every snapshot of the staging sequence, executing the
planned batches against services meeting the §6 contracts yields a final
document whose page sequence equals exactly the included-item order of
the snapshot, for all permutations and interleavings of source
documents. -/
theorem runOrganize_order_preserved (items : List PageItem) (batches : List Batch)
    (h : plan items = .ok batches) :
    (execute idealServices batches).2
      = .ok ((items.filter (·.checked)).map pageRef) := by
  have hb : batches = planBatches (items.filter (·.checked)) := by
    simp only [plan] at h
    split at h
    · exact absurd h (by simp)
    · split at h
      · exact absurd h (by simp)
      · exact (Except.ok.inj h).symm
  subst hb
  rw [execute_ideal, planBatches_flatten]

/-- C1, witness: an interleaved two-document snapshot with one excluded
page reconstructs to exactly its included pages in display order. -/
theorem runOrganize_order_preserved_witness :
    (execute idealServices [{ fileIndex := 0, pages := [1] },
        { fileIndex := 1, pages := [2] }, { fileIndex := 0, pages := [2] }]).2
      = .ok (([⟨0, 1, true⟩, ⟨1, 2, true⟩, ⟨0, 3, false⟩,
          (⟨0, 2, true⟩ : PageItem)].filter (·.checked)).map pageRef) :=
  runOrganize_order_preserved
    [⟨0, 1, true⟩, ⟨1, 2, true⟩, ⟨0, 3, false⟩, ⟨0, 2, true⟩]
    [{ fileIndex := 0, pages := [1] }, { fileIndex := 1, pages := [2] },
      { fileIndex := 0, pages := [2] }]
    (by decide)

/-! ## Fail-fast abort (C3) -/

/-- If every batch of `pre` extracts successfully and `b` fails, the
extraction loop started at position `i` issues exactly the requests for
`pre ++ [b]` and aborts with the failure tagged at position
`i + pre.length`, carrying the service's message. -/
theorem runExtractionsFrom_fail {β : Type} (svc : Services β) (msg : String) :
    ∀ (i : Nat) (pre : List Batch) (b : Batch) (post : List Batch),
      (∀ g ∈ pre, ∃ blob, svc.extract g.fileIndex g.pages = .ok blob) →
      svc.extract b.fileIndex b.pages = .error msg →
      runExtractionsFrom svc i (pre ++ b :: post)
        = ((pre ++ [b]).map mkExtractReq,
           .error (.extractionFailed (i + pre.length)
             (orDefault msg "Failed to extract pages"))) := by
  intro i pre
  induction pre generalizing i with
  | nil =>
    intro b post _ hb
    simp only [List.nil_append, runExtractionsFrom, hb]
    simp [mkExtractReq]
  | cons g pre ih =>
    intro b post hpre hb
    obtain ⟨blob, hg⟩ := hpre g (List.mem_cons_self g pre)
    have ih2 := ih (i + 1) b post (fun x hx => hpre x (List.mem_cons_of_mem g hx)) hb
    have harith : i + 1 + pre.length = i + (pre.length + 1) := by omega
    simp only [List.cons_append, runExtractionsFrom, hg, List.append_eq]
    rw [ih2]
    simp [harith]

/-- C3: on the first failing batch, `execute` aborts with an
`extractionFailed` error carrying that batch's index and the service's
cause; it returns no output, and the issued requests are exactly the
extraction requests for the batches up to and including the failing one —
in particular no extraction request for any later batch and no merge
request. -/
theorem execute_fail_fast {β : Type} (svc : Services β) (msg : String)
    (pre : List Batch) (b : Batch) (post : List Batch)
    (hpre : ∀ g ∈ pre, ∃ blob, svc.extract g.fileIndex g.pages = .ok blob)
    (hb : svc.extract b.fileIndex b.pages = .error msg) :
    execute svc (pre ++ b :: post)
      = ((pre ++ [b]).map mkExtractReq,
         .error (.extractionFailed pre.length (orDefault msg "Failed to extract pages"))) := by
  have h := runExtractionsFrom_fail svc msg 0 pre b post hpre hb
  simp only [execute, h]
  simp

/-- C3, witness: the second of three batches fails; the error carries
batch index 1 and the service's message, and only the first two
extraction requests are issued. -/
theorem execute_fail_fast_witness :
    execute (Services.mk
        (fun fi _ => match fi with | 0 => Except.ok 7 | _ => (Except.error "boom" : Except String Nat))
        (fun _ => Except.ok 0))
        ([({ fileIndex := 0, pages := [1] } : Batch)]
          ++ ({ fileIndex := 1, pages := [2] } : Batch)
            :: [({ fileIndex := 0, pages := [3] } : Batch)])
      = (([({ fileIndex := 0, pages := [1] } : Batch)]
            ++ [({ fileIndex := 1, pages := [2] } : Batch)]).map mkExtractReq,
         .error (.extractionFailed ([{ fileIndex := 0, pages := [1] }] : List Batch).length
           (orDefault "boom" "Failed to extract pages"))) :=
  execute_fail_fast _ "boom" [{ fileIndex := 0, pages := [1] }]
    { fileIndex := 1, pages := [2] } [{ fileIndex := 0, pages := [3] }]
    (fun g hg => by
      rw [List.mem_singleton] at hg
      subst hg
      exact ⟨7, rfl⟩)
    rfl

/-! ## Batch minimality (C2) -/

/-- The grouping step on an item of the same document appends its page
number to the open batch. -/
theorem planGo_cons_same (fi : Nat) (ps : List Nat) (it : PageItem) (rest : List PageItem)
    (h : fi = it.fileIndex) :
    planGo { fileIndex := fi, pages := ps } (it :: rest)
      = planGo { fileIndex := fi, pages := ps ++ [it.pageNum] } rest := by
  simp [planGo, h]

/-- The grouping step on an item of a different document closes the open
batch and opens a new one. -/
theorem planGo_cons_ne (fi : Nat) (ps : List Nat) (it : PageItem) (rest : List PageItem)
    (h : fi ≠ it.fileIndex) :
    planGo { fileIndex := fi, pages := ps } (it :: rest)
      = { fileIndex := fi, pages := ps }
          :: planGo { fileIndex := it.fileIndex, pages := [it.pageNum] } rest := by
  simp [planGo, h]

/-- The head of a same-document run carries the run's document index. -/
theorem head_run_fileIndex (d ag : PageItem) (g : List PageItem)
    (h : ∀ x ∈ g, x.fileIndex = ag.fileIndex) :
    (((ag :: g).reverse).headD d).fileIndex = ag.fileIndex := by
  obtain ⟨a, t, hrev⟩ : ∃ a t, (ag :: g).reverse = a :: t := by
    cases hq : (ag :: g).reverse with
    | nil =>
      have hq2 : (ag :: g) = [] := by simpa using congrArg List.reverse hq
      exact absurd hq2 (by simp)
    | cons a t => exact ⟨a, t, rfl⟩
  have hmem : a ∈ ag :: g := by
    rw [← List.mem_reverse, hrev]
    exact List.mem_cons_self a t
  rw [hrev, List.headD_cons]
  rcases List.mem_cons.mp hmem with h1 | h2
  · rw [h1]
  · exact h a h2

/-- The batch denoted by a completed same-document run. -/
theorem runBatch_run (ag : PageItem) (g : List PageItem)
    (h : ∀ x ∈ g, x.fileIndex = ag.fileIndex) :
    runBatch ((ag :: g).reverse)
      = { fileIndex := ag.fileIndex, pages := ((ag :: g).reverse).map (·.pageNum) } := by
  simp only [runBatch, Batch.mk.injEq]
  exact ⟨head_run_fileIndex _ ag g h, trivial⟩

/-- The run splitter of the standard library, mapped to batches, agrees
with the grouping loop of `runOrganize` at every intermediate state:
`ag` and `g` hold the open run (most recent element first in `g`'s
reversed representation), `gs` the completed runs in reverse. -/
theorem splitBy_loop_planGo (rest : List PageItem) :
    ∀ (ag : PageItem) (g : List PageItem) (gs : List (List PageItem)),
      (∀ x ∈ g, x.fileIndex = ag.fileIndex) →
      (List.splitBy.loop sameDoc rest ag g gs).map runBatch
        = (gs.reverse).map runBatch
          ++ planGo { fileIndex := ag.fileIndex,
                      pages := ((ag :: g).reverse).map (·.pageNum) } rest := by
  induction rest with
  | nil =>
    intro ag g gs h
    show ((((ag :: g).reverse :: gs)).reverse).map runBatch = _
    have hrev2 : (((ag :: g).reverse :: gs)).reverse
        = gs.reverse ++ [(ag :: g).reverse] := by simp
    rw [hrev2, List.map_append]
    simp only [List.map_cons, List.map_nil]
    rw [runBatch_run ag g h]
    simp [planGo]
  | cons a rest ih =>
    intro ag g gs h
    by_cases hfi : ag.fileIndex = a.fileIndex
    · have hR : sameDoc ag a = true := by simp [sameDoc, hfi]
      rw [List.splitBy.loop, hR]
      rw [ih a (ag :: g) gs (by
        intro x hx
        rcases List.mem_cons.mp hx with h1 | h2
        · rw [h1, hfi]
        · rw [h x h2, hfi])]
      rw [planGo_cons_same _ _ _ _ hfi]
      have hbatch : Batch.mk a.fileIndex (((a :: ag :: g).reverse).map (·.pageNum))
          = Batch.mk ag.fileIndex ((((ag :: g).reverse).map (·.pageNum)) ++ [a.pageNum]) := by
        rw [← hfi]
        simp
      rw [hbatch]
    · have hR : sameDoc ag a = false := by simp [sameDoc, hfi]
      rw [List.splitBy.loop, hR]
      rw [ih a [] (((ag :: g).reverse) :: gs) (by intro x hx; cases hx)]
      have hrev2 : (((ag :: g).reverse :: gs)).reverse
          = gs.reverse ++ [(ag :: g).reverse] := by simp
      rw [planGo_cons_ne _ _ _ _ hfi, hrev2, List.map_append]
      simp only [List.map_cons, List.map_nil]
      rw [runBatch_run ag g h]
      simp [List.append_assoc] 

/-- C2: the planner produces one batch per maximal contiguous
same-document run of the included-item sequence, in display order, the
batch's pages being the run's page numbers in display order; and on the
spec's example `[A:p1, A:p3, B:p2, A:p5]` (all included, A = 0, B = 1)
it yields exactly the three batches `(A,[1,3])`, `(B,[2])`, `(A,[5])`. -/
theorem planBatches_runs (items : List PageItem) :
    planBatches items = (items.splitBy sameDoc).map runBatch
      ∧ plan [⟨0, 1, true⟩, ⟨0, 3, true⟩, ⟨1, 2, true⟩, ⟨0, 5, true⟩]
          = .ok [⟨0, [1, 3]⟩, ⟨1, [2]⟩, ⟨0, [5]⟩] := by
  constructor
  · cases items with
    | nil => rfl
    | cons a rest =>
      show planBatches (a :: rest) = (List.splitBy.loop sameDoc rest a [] []).map runBatch
      rw [splitBy_loop_planGo rest a [] [] (by intro x hx; cases hx)]
      simp [planBatches]
  · decide
